import Mathlib

/-!
# Verification of goptest (`main.go`)

Shallow embedding of the goptest repository's core: the fragment
aggregator (`AggregateFiles` and its helpers), the source-bundle builder
(`ConcatFiles`), the unary chat-completion retry wrapper
(`CreateChatCompletion`), and the concurrent dispatcher of `main`.

Go strings are modelled as Lean `String`; the Go string primitives used
by the source (`strings.HasPrefix`, `strings.TrimSpace`,
`strings.TrimPrefix`, `strings.Split` on `"\n"`, and `bufio.Scanner`
with `ScanLines`) are given explicit executable definitions over
`String.data`.  A `strings.Builder` that is only ever written whole
lines (`imports`, `functions`) is represented losslessly by the list of
chunks written, rendered to a `String` at the end.  Go `panic` is
modelled by `Option` (`none` = panic); a Go `error` return is modelled
by `Except`.
-/

/-- Go `unicode.IsSpace` restricted to the Latin-1 range, which is the
set relevant to `strings.TrimSpace` on the source's ASCII markers:
space, `\t`, `\n`, `\v`, `\f`, `\r`, NEL and NBSP. -/
def goIsSpace (c : Char) : Bool :=
  c = ' ' || c = '\t' || c = '\n' || c = '\x0b' || c = '\x0c' || c = '\r' ||
    c = '\x85' || c = '\xa0'

/-- `hasPre p s` decides whether the character list `p` is a prefix of
`s`; this is the byte-level test performed by Go `strings.HasPrefix`. -/
def hasPre : List Char → List Char → Bool
  | [], _ => true
  | _ :: _, [] => false
  | p :: ps, s :: ss => p == s && hasPre ps ss

/-- Go `strings.HasPrefix s pre`. -/
def goHasPre (s pre : String) : Bool := hasPre pre.data s.data

/-- Go `strings.TrimSpace`: drop leading and trailing whitespace. -/
def goTrimSpace (s : String) : String :=
  String.mk (((s.data.dropWhile goIsSpace).reverse.dropWhile goIsSpace).reverse)

/-- Go `strings.TrimPrefix s pre`: remove `pre` from the front of `s`
when it is present, otherwise return `s` unchanged. -/
def goTrimPre (s pre : String) : String :=
  if goHasPre s pre then String.mk (s.data.drop pre.data.length) else s

/-- Worker for `goSplitNL`: accumulates the current line (reversed). -/
def splitLinesAux : List Char → List Char → List String
  | [], acc => [String.mk acc.reverse]
  | c :: cs, acc =>
      if c = '\n' then String.mk acc.reverse :: splitLinesAux cs []
      else splitLinesAux cs (c :: acc)

/-- Go `strings.Split s "\n"`: the list of `\n`-separated pieces of
`s` (one more piece than there are newlines). -/
def goSplitNL (s : String) : List String := splitLinesAux s.data []

/-- `isPackageDeclaration` from main.go line 27. -/
def isPackageDeclaration (line : String) : Bool := goHasPre line "package "

/-- `isGPTAddedCodeBlockDelimeter` from main.go line 31. -/
def isGPTAddedCodeBlockDelimeter (line : String) : Bool := goHasPre line "```"

/-- `startsImportBlock` from main.go line 35. -/
def startsImportBlock (line : String) : Bool := goHasPre line "import ("

/-- `isSingleImportStatement` from main.go line 39. -/
def isSingleImportStatement (line : String) : Bool := goHasPre line "import \""

/-- `addImport` from main.go line 54.  The Go pair of a
`strings.Builder` (which receives `"\t" + importLine + "\n"`) and the
set `importSet` is represented by the single list of distinct import
lines in the order they were written; `renderImports` recovers the
builder's contents. -/
def addImport (imports : List String) (importLine : String) : List String :=
  if importLine ∈ imports then imports else imports ++ [importLine]

/-- Contents of the `imports` builder: `"\t" + line + "\n"` per call of
`addImport` that inserted. -/
def renderImports : List String → String
  | [] => ""
  | l :: ls => "\t" ++ l ++ "\n" ++ renderImports ls

/-- Contents of the `functions` builder: each recorded chunk was
written with a trailing `"\n"`. -/
def renderBody : List String → String
  | [] => ""
  | c :: cs => c ++ "\n" ++ renderBody cs

/-- The line loop of `AggregateFiles` (main.go lines 86-108) fused with
`handleImportBlock` (lines 43-52).  `inBlock` records whether the loop
is currently consuming an unclosed `import (` block: the Go code
expresses this by calling `handleImportBlock lines[i+1:]` and skipping
the consumed lines, which visits exactly the same lines in the same
modes.  `none` models the `panic("import block not closed")` reached
when a fragment ends inside an import block. -/
def aggLines (comment : Bool) :
    List String → Bool → List String → List String →
      Option (List String × List String)
  | [], inBlock, imports, functions =>
      if inBlock then none else some (imports, functions)
  | line :: rest, inBlock, imports, functions =>
      let trimmedLine := goTrimSpace line
      if inBlock then
        if goHasPre trimmedLine ")" then
          aggLines comment rest false imports functions
        else
          aggLines comment rest true (addImport imports trimmedLine) functions
      else if isPackageDeclaration trimmedLine ||
          isGPTAddedCodeBlockDelimeter trimmedLine then
        aggLines comment rest false imports functions
      else if startsImportBlock trimmedLine then
        aggLines comment rest true imports functions
      else if isSingleImportStatement trimmedLine then
        aggLines comment rest false
          (addImport imports (goTrimPre trimmedLine "import ")) functions
      else
        aggLines comment rest false imports
          (functions ++ [(if comment then "// " else "") ++ line])

/-- The fragment loop of `AggregateFiles` (main.go lines 83-110): split
each response on `"\n"`, run the line loop, then write one `"\n"`
separator (the empty chunk) to the `functions` builder. -/
def aggFragments (comment : Bool) :
    List String → List String → List String →
      Option (List String × List String)
  | [], imports, functions => some (imports, functions)
  | response :: rest, imports, functions =>
      match aggLines comment (goSplitNL response) false imports functions with
      | some (imports2, functions2) =>
          aggFragments comment rest imports2 (functions2 ++ [""])
      | none => none

/-- `combineSections` from main.go lines 61-74. -/
def combineSections (packageDecl importsStr functionsStr : String) : String :=
  (if packageDecl = "" then "" else "package " ++ packageDecl ++ "\n") ++
    "\n" ++
    (if importsStr = "" then ""
     else "\nimport (\n" ++ importsStr ++ ")\n\n") ++
    functionsStr

/-- `AggregateFiles` from main.go lines 77-113.  `none` models the
panic propagated out of `handleImportBlock`. -/
def AggregateFiles (pkgName : String) (fs : List String) (comment : Bool) :
    Option String :=
  match aggFragments comment fs [] [] with
  | some (imports, functions) =>
      some (combineSections pkgName (renderImports imports)
        (renderBody functions))
  | none => none

/-- `dropCR` of `bufio.ScanLines`: strip one trailing `\r`. -/
def dropCR (s : String) : String :=
  match s.data.getLast? with
  | some '\r' => String.mk s.data.dropLast
  | _ => s

/-- The tokens produced by a `bufio.Scanner` with `ScanLines` over `s`
(main.go lines 128-135): the `\n`-separated pieces, except that a final
empty piece (input empty or ending in `\n`) yields no token, and each
token has a trailing `\r` stripped. -/
def scanLines (s : String) : List String :=
  let parts := goSplitNL s
  (if parts.getLast? = some "" then parts.dropLast else parts).map dropCR

/-- The package-name scan of `ConcatFiles` (main.go lines 128-135): the
text after `"package "` on the first line having that prefix, or `""`
if no line does. -/
def extractPkgName : List String → String
  | [] => ""
  | line :: rest =>
      if goHasPre line "package " then goTrimPre line "package "
      else extractPkgName rest

/-- The read loop of `ConcatFiles` (main.go lines 121-126):
`os.ReadFile` is modelled by the ambient `readFile` map; the first
unreadable path aborts with an error naming it. -/
def readAll (readFile : String → Option String) :
    List String → Except String (List String)
  | [] => Except.ok []
  | f :: rest =>
      match readFile f with
      | none => Except.error f
      | some fc =>
          match readAll readFile rest with
          | Except.ok rfs => Except.ok (fc :: rfs)
          | Except.error e => Except.error e

/-- The package identifier `ConcatFiles` derives from its file
contents: the scan runs only over the first file (the `i == 0` branch
of main.go lines 127-139); with no files the Go zero value `""`
stands. -/
def pkgOfContents : List String → String
  | [] => ""
  | fc :: _ => extractPkgName (scanLines fc)

/-- `ConcatFiles` from main.go lines 116-145.  The outer `Except` is
the Go `error` return; the inner `Option` is the panic that
`AggregateFiles` may raise. -/
def ConcatFiles (readFile : String → Option String) (fs : List String) :
    Except String (Option (String × String)) :=
  match readAll readFile fs with
  | Except.error e => Except.error e
  | Except.ok rfs =>
      Except.ok ((AggregateFiles (pkgOfContents rfs) rfs false).map
        (fun s => (pkgOfContents rfs, s)))

/-- The final aggregation call of `main` (main.go line 724): generated
test fragments are merged with comment-mode on. -/
def mainCombinedCode (pkgName : String) (responses : List String) :
    Option String :=
  AggregateFiles pkgName responses true

/-- The two failure shapes of a backend call: `*openai.APIError`
carrying an HTTP status code, or any other error value. -/
inductive GoError where
  | api (httpStatusCode : Nat) (message : String)
  | other (message : String)
deriving DecidableEq, Repr

/-- `CreateChatCompletion` from main.go lines 185-207.  The backend is
modelled as a map from the call number (0 = first attempt, 1 = retry)
to its outcome.  The result is the returned value together with the
number of backend calls made and the list of sleep durations (seconds)
performed. -/
def CreateChatCompletion (backend : Nat → Except GoError String) :
    Except GoError String × Nat × List Nat :=
  match backend 0 with
  | Except.ok resp => (Except.ok resp, 1, [])
  | Except.error err =>
      match err with
      | GoError.api status _ =>
          if status == 429 || decide (500 ≤ status) then
            match backend 1 with
            | Except.ok resp => (Except.ok resp, 2, [10])
            | Except.error e2 => (Except.error e2, 2, [10])
          else (Except.error err, 1, [])
      | GoError.other _ => (Except.error err, 1, [])

/-- Retryability as the spec states it: HTTP 429 or a 5xx status on an
API error; nothing else. -/
def isRetryableError : GoError → Bool
  | GoError.api status _ => status == 429 || decide (500 ≤ status)
  | GoError.other _ => false

/-- The result-collection pattern of `main`'s dispatcher (main.go lines
694-721): `responses := make([]string, n)` and each worker `i` performs
`responses[i] = gen i`.  Workers write disjoint slots, so a concurrent
execution is modelled by the sequence `order` in which the slot writes
land. -/
def dispatchWrites (gen : Nat → String) (n : Nat) (order : List Nat) :
    List String :=
  order.foldl (fun responses i => responses.set i (gen i))
    (List.replicate n "")

/-- Spec-side reference for C1: the import entries the line loop
encounters, in traversal order, duplicates included.  Block entries are
recorded as their trimmed text, single-line statements as their trimmed
text with the `import ` keyword removed — exactly the keys the source
hands to `addImport`. -/
def entryLines : Bool → List String → List String
  | _, [] => []
  | inBlock, line :: rest =>
      let trimmedLine := goTrimSpace line
      if inBlock then
        if goHasPre trimmedLine ")" then entryLines false rest
        else trimmedLine :: entryLines true rest
      else if isPackageDeclaration trimmedLine ||
          isGPTAddedCodeBlockDelimeter trimmedLine then
        entryLines false rest
      else if startsImportBlock trimmedLine then entryLines true rest
      else if isSingleImportStatement trimmedLine then
        goTrimPre trimmedLine "import " :: entryLines false rest
      else entryLines false rest

/-- All import entries encountered across the fragments, in order,
duplicates included. -/
def collectedImports (fs : List String) : List String :=
  fs.flatMap (fun f => entryLines false (goSplitNL f))

/-- Membership after one `addImport` step. -/
theorem mem_addImport {imports : List String} {x y : String} :
    y ∈ addImport imports x ↔ y ∈ imports ∨ y = x := by
  unfold addImport
  by_cases hx : x ∈ imports
  · rw [if_pos hx]
    exact ⟨Or.inl, fun h => h.elim id (fun he => he ▸ hx)⟩
  · rw [if_neg hx]
    simp

/-- `addImport` preserves distinctness of the import list. -/
theorem nodup_addImport {imports : List String} (h : imports.Nodup)
    (x : String) : (addImport imports x).Nodup := by
  unfold addImport
  by_cases hx : x ∈ imports
  · rwa [if_pos hx]
  · rw [if_neg hx, List.nodup_append]
    refine ⟨h, List.nodup_singleton x, ?_⟩
    intro a ha hax
    rw [List.mem_singleton] at hax
    exact hx (hax ▸ ha)

/-- Membership after folding `addImport` over a batch of entries. -/
theorem mem_foldl_addImport (xs : List String) :
    ∀ (acc : List String) (y : String),
      y ∈ xs.foldl addImport acc ↔ y ∈ acc ∨ y ∈ xs := by
  induction xs with
  | nil => simp
  | cons x rest ih =>
      intro acc y
      rw [List.foldl_cons, ih, mem_addImport, List.mem_cons]
      tauto

/-- Folding `addImport` over any batch of entries keeps the import list
duplicate-free. -/
theorem nodup_foldl_addImport (xs : List String) :
    ∀ acc : List String, acc.Nodup → (xs.foldl addImport acc).Nodup := by
  induction xs with
  | nil => exact fun acc h => h
  | cons x rest ih =>
      intro acc h
      rw [List.foldl_cons]
      exact ih _ (nodup_addImport h x)

/-- The import list produced by the line loop is the `addImport` fold
of the entries it encounters. -/
theorem aggLines_imports_spec (comment : Bool) (lines : List String) :
    ∀ (inBlock : Bool) (imports functions imports2 functions2 : List String),
      aggLines comment lines inBlock imports functions =
        some (imports2, functions2) →
      imports2 = (entryLines inBlock lines).foldl addImport imports := by
  induction lines with
  | nil =>
      intro inBlock imports functions imports2 functions2 h
      cases inBlock with
      | true => exact absurd h (by simp [aggLines])
      | false =>
          simp only [aggLines, Bool.false_eq_true, if_false,
            Option.some.injEq, Prod.mk.injEq] at h
          obtain ⟨rfl, rfl⟩ := h
          simp [entryLines]
  | cons x rest ih =>
      intro inBlock imports functions imports2 functions2 h
      simp only [aggLines] at h
      simp only [entryLines]
      cases inBlock with
      | true =>
          simp only [if_true] at h ⊢
          by_cases hc : goHasPre (goTrimSpace x) ")" = true
          · rw [if_pos hc] at h
            rw [if_pos hc]
            exact ih false _ _ _ _ h
          · rw [if_neg hc] at h
            rw [if_neg hc, List.foldl_cons]
            exact ih true _ _ _ _ h
      | false =>
          simp only [Bool.false_eq_true, if_false] at h ⊢
          by_cases hp : (isPackageDeclaration (goTrimSpace x) ||
              isGPTAddedCodeBlockDelimeter (goTrimSpace x)) = true
          · rw [if_pos hp] at h
            rw [if_pos hp]
            exact ih false _ _ _ _ h
          · rw [if_neg hp] at h
            rw [if_neg hp]
            by_cases hs : startsImportBlock (goTrimSpace x) = true
            · rw [if_pos hs] at h
              rw [if_pos hs]
              exact ih true _ _ _ _ h
            · rw [if_neg hs] at h
              rw [if_neg hs]
              by_cases hsi : isSingleImportStatement (goTrimSpace x) = true
              · rw [if_pos hsi] at h
                rw [if_pos hsi, List.foldl_cons]
                exact ih false _ _ _ _ h
              · rw [if_neg hsi] at h
                rw [if_neg hsi]
                exact ih false _ _ _ _ h

/-- The import list produced by the fragment loop is the `addImport`
fold of all entries encountered across the fragments. -/
theorem aggFragments_imports_spec (comment : Bool) (fs : List String) :
    ∀ (imports functions imports2 functions2 : List String),
      aggFragments comment fs imports functions =
        some (imports2, functions2) →
      imports2 = (collectedImports fs).foldl addImport imports := by
  induction fs with
  | nil =>
      intro imports functions imports2 functions2 h
      simp only [aggFragments, Option.some.injEq, Prod.mk.injEq] at h
      obtain ⟨rfl, rfl⟩ := h
      simp [collectedImports]
  | cons g rest ih =>
      intro imports functions imports2 functions2 h
      unfold aggFragments at h
      cases hsplit : aggLines comment (goSplitNL g) false imports functions with
      | none => rw [hsplit] at h; cases h
      | some p =>
          obtain ⟨impsMid, fnsMid⟩ := p
          rw [hsplit] at h
          have h1 := aggLines_imports_spec comment (goSplitNL g) false
            imports functions impsMid fnsMid hsplit
          have h2 := ih _ _ _ _ h
          rw [h2, h1]
          simp [collectedImports, List.foldl_append]

/-- C1: whenever aggregation returns an artifact, its import section is
built from the duplicate-free, first-seen-ordered `addImport` fold of
every import entry collected from the fragments (block entries and
single-line statements alike): each distinct collected entry appears in
the import list exactly once. -/
theorem c1_import_dedup (pkgName : String) (comment : Bool)
    (fs : List String) (out : String)
    (h : AggregateFiles pkgName fs comment = some out) :
    ∃ imports functions,
      aggFragments comment fs [] [] = some (imports, functions) ∧
      out = combineSections pkgName (renderImports imports)
        (renderBody functions) ∧
      imports = (collectedImports fs).foldl addImport [] ∧
      imports.Nodup ∧
      (∀ l, l ∈ imports ↔ l ∈ collectedImports fs) ∧
      (∀ l ∈ collectedImports fs, imports.count l = 1) := by
  unfold AggregateFiles at h
  cases hagg : aggFragments comment fs [] [] with
  | none => rw [hagg] at h; cases h
  | some p =>
      obtain ⟨imports, functions⟩ := p
      rw [hagg] at h
      have hspec : imports = (collectedImports fs).foldl addImport [] :=
        aggFragments_imports_spec comment fs [] [] imports functions hagg
      have hnd : imports.Nodup := by
        rw [hspec]
        exact nodup_foldl_addImport _ [] List.nodup_nil
      have hmem : ∀ l, l ∈ imports ↔ l ∈ collectedImports fs := by
        intro l
        rw [hspec, mem_foldl_addImport]
        simp
      exact ⟨imports, functions, rfl, (Option.some.inj h).symm, hspec, hnd,
        hmem, fun l hl => List.count_eq_one_of_mem hnd ((hmem l).mpr hl)⟩

/-- C1 witness: two fragments that both import `"fmt"` yield an import
list holding `"fmt"` exactly once. -/
theorem c1_import_dedup_witness :
    ∃ imports functions,
      aggFragments false ["import \"fmt\"", "import \"fmt\""] [] [] =
        some (imports, functions) ∧
      "package p\n\n\nimport (\n\t\"fmt\"\n)\n\n\n\n" =
        combineSections "p" (renderImports imports)
          (renderBody functions) ∧
      imports = (collectedImports ["import \"fmt\"", "import \"fmt\""]).foldl
        addImport [] ∧
      imports.Nodup ∧
      (∀ l, l ∈ imports ↔
        l ∈ collectedImports ["import \"fmt\"", "import \"fmt\""]) ∧
      (∀ l ∈ collectedImports ["import \"fmt\"", "import \"fmt\""],
        imports.count l = 1) :=
  c1_import_dedup "p" false ["import \"fmt\"", "import \"fmt\""]
    "package p\n\n\nimport (\n\t\"fmt\"\n)\n\n\n\n" (by decide)

/-- Two prefixes of the same character list share their head. -/
theorem hasPre_head {c d : Char} {ps qs ss : List Char}
    (h1 : hasPre (c :: ps) ss = true) (h2 : hasPre (d :: qs) ss = true) :
    c = d := by
  cases ss with
  | nil => simp [hasPre] at h1
  | cons a as =>
      simp only [hasPre, Bool.and_eq_true, beq_iff_eq] at h1 h2
      exact h1.1.trans h2.1.symm

/-- A string cannot carry two prefixes that start with different
characters. -/
theorem goHasPre_disjoint {t p q : String} {c d : Char}
    {ps qs : List Char} (hp : p.data = c :: ps) (hq : q.data = d :: qs)
    (hcd : c ≠ d) (h : goHasPre t p = true) : goHasPre t q = false := by
  unfold goHasPre at h ⊢
  rw [hp] at h
  by_contra hc
  rw [Bool.not_eq_false, hq] at hc
  exact hcd (hasPre_head h hc)

/-- Inside an import block, a tail of lines holding no closing line
makes the line loop panic. -/
theorem aggLines_no_close (comment : Bool) (lines : List String)
    (hno : ∀ l ∈ lines, goHasPre (goTrimSpace l) ")" = false)
    (imports functions : List String) :
    aggLines comment lines true imports functions = none := by
  induction lines generalizing imports functions with
  | nil => rfl
  | cons x rest ih =>
      have hx := hno x (List.mem_cons_self x rest)
      simp only [aggLines, hx, Bool.false_eq_true, if_true, if_false]
      exact ih (fun l hl => hno l (List.mem_cons_of_mem x hl)) _ _

/-- An import-block opener with no closing line anywhere after it makes
the line loop panic, whatever mode it starts in. -/
theorem aggLines_unterminated (comment : Bool) :
    ∀ (lines pre post : List String) (opener : String),
      lines = pre ++ opener :: post →
      goHasPre (goTrimSpace opener) "import (" = true →
      (∀ l ∈ post, goHasPre (goTrimSpace l) ")" = false) →
      ∀ (inBlock : Bool) (imports functions : List String),
        aggLines comment lines inBlock imports functions = none := by
  intro lines
  induction lines with
  | nil =>
      intro pre post opener heq
      cases pre <;> simp at heq
  | cons x rest ih =>
      intro pre post opener heq hop hno inBlock imports functions
      cases pre with
      | nil =>
          obtain ⟨rfl, rfl⟩ : x = opener ∧ rest = post := by
            simpa using heq
          have hclose : goHasPre (goTrimSpace x) ")" = false :=
            goHasPre_disjoint (p := "import (") (q := ")") rfl rfl
              (by decide) hop
          have hpkg : isPackageDeclaration (goTrimSpace x) = false := by
            unfold isPackageDeclaration
            exact goHasPre_disjoint (p := "import (") (q := "package ")
              rfl rfl (by decide) hop
          have hfence : isGPTAddedCodeBlockDelimeter (goTrimSpace x) = false := by
            unfold isGPTAddedCodeBlockDelimeter
            exact goHasPre_disjoint (p := "import (") (q := "```")
              rfl rfl (by decide) hop
          have hsib : startsImportBlock (goTrimSpace x) = true := hop
          cases inBlock with
          | true =>
              simp only [aggLines, hclose, Bool.false_eq_true, if_true,
                if_false]
              exact aggLines_no_close comment rest hno _ _
          | false =>
              simp only [aggLines, hclose, hpkg, hfence, hsib,
                Bool.false_eq_true, Bool.or_self, if_true, if_false]
              exact aggLines_no_close comment rest hno _ _
      | cons y pre2 =>
          obtain ⟨rfl, hrest⟩ : x = y ∧ rest = pre2 ++ opener :: post := by
            simpa using heq
          have IH : ∀ (inB : Bool) (imps fns : List String),
              aggLines comment rest inB imps fns = none :=
            fun inB imps fns => ih pre2 post opener hrest hop hno inB imps fns
          simp only [aggLines]
          split
          · split
            · exact IH _ _ _
            · exact IH _ _ _
          · split
            · exact IH _ _ _
            · split
              · exact IH _ _ _
              · split
                · exact IH _ _ _
                · exact IH _ _ _

/-- A fragment that opens an import block and never closes it: some
line opens (or lies inside) an `import (` block and no later line of
the fragment starts (after trimming) with `)`. -/
def unterminatedFragment (f : String) : Prop :=
  ∃ pre opener post, goSplitNL f = pre ++ opener :: post ∧
    goHasPre (goTrimSpace opener) "import (" = true ∧
    ∀ l ∈ post, goHasPre (goTrimSpace l) ")" = false

/-- The fragment loop panics as soon as it reaches a fragment with an
unterminated import block. -/
theorem aggFragments_unterminated (comment : Bool) (fs : List String)
    (h : ∃ f ∈ fs, unterminatedFragment f)
    (imports functions : List String) :
    aggFragments comment fs imports functions = none := by
  induction fs generalizing imports functions with
  | nil => obtain ⟨f, hf, -⟩ := h; cases hf
  | cons g rest ih =>
      obtain ⟨f, hf, hbad⟩ := h
      rcases List.mem_cons.mp hf with rfl | hfr
      · obtain ⟨pre, opener, post, heq, hop, hno⟩ := hbad
        unfold aggFragments
        rw [aggLines_unterminated comment _ pre post opener heq hop hno
          false imports functions]
      · unfold aggFragments
        cases hsplit : aggLines comment (goSplitNL g) false imports functions with
        | none => rfl
        | some p =>
            cases p
            exact ih ⟨f, hfr, hbad⟩ _ _

/-- C3: if any fragment contains an import-block opener with no closing
line before the fragment ends, aggregation panics and returns no
artifact at all. -/
theorem c3_unterminated_is_fatal (pkgName : String) (fs : List String)
    (comment : Bool) (h : ∃ f ∈ fs, unterminatedFragment f) :
    AggregateFiles pkgName fs comment = none := by
  unfold AggregateFiles
  rw [aggFragments_unterminated comment fs h [] []]

/-- C3 witness: the single fragment `"import ("` makes aggregation
panic instead of producing an artifact. -/
theorem c3_unterminated_is_fatal_witness :
    AggregateFiles "demo" ["import ("] false = none :=
  c3_unterminated_is_fatal "demo" ["import ("] false
    ⟨"import (", List.mem_cons_self _ _,
      ⟨[], "import (", [], by decide, by decide, by simp⟩⟩

/-- A list is a prefix of itself followed by anything. -/
theorem hasPre_append (xs ys : List Char) : hasPre xs (xs ++ ys) = true := by
  induction xs with
  | nil => rfl
  | cons c cs ih => simp [hasPre, ih]

/-- A string starts with anything it was built by prepending. -/
theorem goHasPre_append (p l : String) : goHasPre (p ++ l) p = true := by
  unfold goHasPre
  rw [String.data_append]
  exact hasPre_append _ _

/-- Every chunk the line loop appends to the `functions` builder is an
ordinary input line, optionally comment-prefixed: its trimmed text is
neither a package declaration, a fence delimiter, an import-block
opener, nor a single-line import statement. -/
theorem aggLines_functions_spec (comment : Bool) (lines : List String) :
    ∀ (inBlock : Bool) (imports functions imports2 functions2 : List String),
      aggLines comment lines inBlock imports functions =
        some (imports2, functions2) →
      ∀ c ∈ functions2, c ∈ functions ∨
        ∃ l ∈ lines, c = (if comment then "// " else "") ++ l ∧
          isPackageDeclaration (goTrimSpace l) = false ∧
          isGPTAddedCodeBlockDelimeter (goTrimSpace l) = false ∧
          startsImportBlock (goTrimSpace l) = false ∧
          isSingleImportStatement (goTrimSpace l) = false := by
  induction lines with
  | nil =>
      intro inBlock imports functions imports2 functions2 h c hc
      cases inBlock with
      | true => exact absurd h (by simp [aggLines])
      | false =>
          simp only [aggLines, Bool.false_eq_true, if_false,
            Option.some.injEq, Prod.mk.injEq] at h
          obtain ⟨rfl, rfl⟩ := h
          exact Or.inl hc
  | cons x rest ih =>
      intro inBlock imports functions imports2 functions2 h c hc
      simp only [aggLines] at h
      cases inBlock with
      | true =>
          simp only [if_true] at h
          by_cases hcl : goHasPre (goTrimSpace x) ")" = true
          · rw [if_pos hcl] at h
            exact (ih false _ _ _ _ h c hc).imp id
              (fun ⟨l, hl, hr⟩ => ⟨l, List.mem_cons_of_mem x hl, hr⟩)
          · rw [if_neg hcl] at h
            exact (ih true _ _ _ _ h c hc).imp id
              (fun ⟨l, hl, hr⟩ => ⟨l, List.mem_cons_of_mem x hl, hr⟩)
      | false =>
          simp only [Bool.false_eq_true, if_false] at h
          by_cases hp : (isPackageDeclaration (goTrimSpace x) ||
              isGPTAddedCodeBlockDelimeter (goTrimSpace x)) = true
          · rw [if_pos hp] at h
            exact (ih false _ _ _ _ h c hc).imp id
              (fun ⟨l, hl, hr⟩ => ⟨l, List.mem_cons_of_mem x hl, hr⟩)
          · rw [if_neg hp] at h
            by_cases hs : startsImportBlock (goTrimSpace x) = true
            · rw [if_pos hs] at h
              exact (ih true _ _ _ _ h c hc).imp id
                (fun ⟨l, hl, hr⟩ => ⟨l, List.mem_cons_of_mem x hl, hr⟩)
            · rw [if_neg hs] at h
              by_cases hsi : isSingleImportStatement (goTrimSpace x) = true
              · rw [if_pos hsi] at h
                exact (ih false _ _ _ _ h c hc).imp id
                  (fun ⟨l, hl, hr⟩ => ⟨l, List.mem_cons_of_mem x hl, hr⟩)
              · rw [if_neg hsi] at h
                simp only [Bool.or_eq_true, not_or, Bool.not_eq_true] at hp
                rw [Bool.not_eq_true] at hs hsi
                rcases ih false _ _ _ _ h c hc with hin | ⟨l, hl, hr⟩
                · rcases List.mem_append.mp hin with hin2 | hin2
                  · exact Or.inl hin2
                  · rw [List.mem_singleton] at hin2
                    exact Or.inr ⟨x, List.mem_cons_self x rest, hin2,
                      hp.1, hp.2, hs, hsi⟩
                · exact Or.inr ⟨l, List.mem_cons_of_mem x hl, hr⟩

/-- Every chunk of the final `functions` builder is either a fragment
separator (the empty chunk, written as a bare newline) or an ordinary
line of one of the fragments, optionally comment-prefixed. -/
theorem aggFragments_functions_spec (comment : Bool) (fs : List String) :
    ∀ (imports functions imports2 functions2 : List String),
      aggFragments comment fs imports functions =
        some (imports2, functions2) →
      ∀ c ∈ functions2, c ∈ functions ∨ c = "" ∨
        ∃ f ∈ fs, ∃ l ∈ goSplitNL f,
          c = (if comment then "// " else "") ++ l ∧
          isPackageDeclaration (goTrimSpace l) = false ∧
          isGPTAddedCodeBlockDelimeter (goTrimSpace l) = false ∧
          startsImportBlock (goTrimSpace l) = false ∧
          isSingleImportStatement (goTrimSpace l) = false := by
  induction fs with
  | nil =>
      intro imports functions imports2 functions2 h c hc
      simp only [aggFragments, Option.some.injEq, Prod.mk.injEq] at h
      obtain ⟨rfl, rfl⟩ := h
      exact Or.inl hc
  | cons g rest ih =>
      intro imports functions imports2 functions2 h c hc
      unfold aggFragments at h
      cases hsplit : aggLines comment (goSplitNL g) false imports functions with
      | none => rw [hsplit] at h; cases h
      | some p =>
          obtain ⟨impsMid, fnsMid⟩ := p
          rw [hsplit] at h
          rcases ih _ _ _ _ h c hc with hin | hsep | ⟨f, hf, l, hl, hr⟩
          · rcases List.mem_append.mp hin with hin2 | hin2
            · rcases aggLines_functions_spec comment (goSplitNL g) false
                _ _ _ _ hsplit c hin2 with hin3 | ⟨l, hl, hr⟩
              · exact Or.inl hin3
              · exact Or.inr (Or.inr ⟨g, List.mem_cons_self g rest, l, hl, hr⟩)
            · rw [List.mem_singleton] at hin2
              exact Or.inr (Or.inl hin2)
          · exact Or.inr (Or.inl hsep)
          · exact Or.inr (Or.inr ⟨f, List.mem_cons_of_mem g hf, l, hl, hr⟩)

/-- C2 counterexample: a fence-delimiter line sitting inside an import
block is not discarded — it is recorded as an import entry and appears
in the artifact: the input fragment has a line whose trimmed text is
the fence delimiter, and so does the aggregated artifact. -/
theorem c2_fence_line_reaches_artifact :
    AggregateFiles "" ["import (\n```\n)"] false =
      some "\n\nimport (\n\t```\n)\n\n\n" ∧
    "```" ∈ (goSplitNL "import (\n```\n)").map goTrimSpace ∧
    "```" ∈ (goSplitNL "\n\nimport (\n\t```\n)\n\n\n").map goTrimSpace := by
  decide

/-- C2 amended: lines whose trimmed text begins with the package or
code-fence marker are discarded only outside import blocks: no chunk of
the body section is such a line (each body chunk is a separator or an
ordinary input line, comment-prefixed when comment-mode is on); a line
inside an import block, however, is recorded verbatim as an entry even
when it carries those markers, and then appears in the artifact's
section of imports. -/
theorem c2_body_free_of_markers (pkgName : String) (comment : Bool)
    (fs imports functions : List String)
    (h : aggFragments comment fs [] [] = some (imports, functions)) :
    AggregateFiles pkgName fs comment =
      some (combineSections pkgName (renderImports imports)
        (renderBody functions)) ∧
    ∀ c ∈ functions, c = "" ∨
      ∃ f ∈ fs, ∃ l ∈ goSplitNL f,
        c = (if comment then "// " else "") ++ l ∧
        isPackageDeclaration (goTrimSpace l) = false ∧
        isGPTAddedCodeBlockDelimeter (goTrimSpace l) = false := by
  constructor
  · unfold AggregateFiles
    rw [h]
  · intro c hc
    rcases aggFragments_functions_spec comment fs [] [] imports functions
        h c hc with hin | hsep | ⟨f, hf, l, hl, heq, h1, h2, -, -⟩
    · cases hin
    · exact Or.inl hsep
    · exact Or.inr ⟨f, hf, l, hl, heq, h1, h2⟩

/-- C2 amended witness: one ordinary fragment, whose body chunks are
the separator or marker-free input lines. -/
theorem c2_body_free_of_markers_witness :
    AggregateFiles "p" ["func A(){}"] false =
      some (combineSections "p" (renderImports [])
        (renderBody ["func A(){}", ""])) ∧
    ∀ c ∈ ["func A(){}", ""], c = "" ∨
      ∃ f ∈ ["func A(){}"], ∃ l ∈ goSplitNL f,
        c = (if false then "// " else "") ++ l ∧
        isPackageDeclaration (goTrimSpace l) = false ∧
        isGPTAddedCodeBlockDelimeter (goTrimSpace l) = false :=
  c2_body_free_of_markers "p" false ["func A(){}"] [] ["func A(){}", ""]
    (by decide)

/-- C4 counterexample: `ConcatFiles` merges raw source with
comment-mode off — the blob keeps `func A(){}` verbatim and no line of
it carries the `// ` marker — while `main`'s merge of generated
fragments applies comment-mode, producing `// func B(){}`. -/
theorem c4_comment_mode_sides_swapped :
    ConcatFiles (fun p => if p = "a.go" then some "func A(){}" else none)
        ["a.go"] =
      Except.ok (some ("", "\nfunc A(){}\n\n")) ∧
    ("func A(){}" ∈ goSplitNL "\nfunc A(){}\n\n") ∧
    (∀ l ∈ goSplitNL "\nfunc A(){}\n\n", goHasPre l "// " = false) ∧
    mainCombinedCode "demo" ["func B(){}"] =
      some "package demo\n\n// func B(){}\n\n" ∧
    ("// func B(){}" ∈ goSplitNL "package demo\n\n// func B(){}\n\n") := by
  exact ⟨rfl, by decide, by decide, by decide, by decide⟩

/-- C4 amended: comment-mode is applied by `main` when merging the
generated test fragments (every non-separator body chunk of a
comment-mode merge carries the `// ` marker), and is NOT applied by
`ConcatFiles` when merging raw source files (its body chunks are the
input lines themselves, unprefixed). -/
theorem c4_comment_mode_call_sites (fs : List String)
    (impsT fnsT impsF fnsF : List String)
    (hT : aggFragments true fs [] [] = some (impsT, fnsT))
    (hF : aggFragments false fs [] [] = some (impsF, fnsF)) :
    (∀ pkgName, mainCombinedCode pkgName fs = AggregateFiles pkgName fs true) ∧
    (∀ readFile paths, ConcatFiles readFile paths =
      match readAll readFile paths with
      | Except.error e => Except.error e
      | Except.ok rfs =>
          Except.ok ((AggregateFiles (pkgOfContents rfs) rfs false).map
            (fun s => (pkgOfContents rfs, s)))) ∧
    (∀ c ∈ fnsT, c = "" ∨ goHasPre c "// " = true) ∧
    (∀ c ∈ fnsF, c = "" ∨ ∃ f ∈ fs, c ∈ goSplitNL f) := by
  refine ⟨fun _ => rfl, fun readFile paths => rfl, ?_, ?_⟩
  · intro c hc
    rcases aggFragments_functions_spec true fs [] [] impsT fnsT hT c hc with
      hin | hsep | ⟨f, hf, l, hl, heq, -⟩
    · cases hin
    · exact Or.inl hsep
    · refine Or.inr ?_
      rw [heq]
      exact goHasPre_append "// " l
  · intro c hc
    rcases aggFragments_functions_spec false fs [] [] impsF fnsF hF c hc with
      hin | hsep | ⟨f, hf, l, hl, heq, -⟩
    · cases hin
    · exact Or.inl hsep
    · refine Or.inr ⟨f, hf, ?_⟩
      rw [heq]
      simpa using hl

/-- C4 amended witness at a concrete fragment list. -/
theorem c4_comment_mode_call_sites_witness :
    (∀ pkgName, mainCombinedCode pkgName ["func A(){}"] =
      AggregateFiles pkgName ["func A(){}"] true) ∧
    (∀ readFile paths, ConcatFiles readFile paths =
      match readAll readFile paths with
      | Except.error e => Except.error e
      | Except.ok rfs =>
          Except.ok ((AggregateFiles (pkgOfContents rfs) rfs false).map
            (fun s => (pkgOfContents rfs, s)))) ∧
    (∀ c ∈ ["// func A(){}", ""], c = "" ∨ goHasPre c "// " = true) ∧
    (∀ c ∈ ["func A(){}", ""], c = "" ∨
      ∃ f ∈ ["func A(){}"], c ∈ goSplitNL f) :=
  c4_comment_mode_call_sites ["func A(){}"] [] ["// func A(){}", ""]
    [] ["func A(){}", ""] (by decide) (by decide)

/-- Length is preserved by the dispatcher's slot writes. -/

theorem dispatchFold_length (gen : Nat → String) (order : List Nat)
    (acc : List String) :
    (order.foldl (fun responses i => responses.set i (gen i)) acc).length =
      acc.length := by
  induction order generalizing acc with
  | nil => rfl
  | cons j rest ih => simpa using ih (acc.set j (gen j))

/-- A slot not named in the remaining write order keeps its value. -/
theorem dispatchFold_not_mem (gen : Nat → String) (order : List Nat)
    (acc : List String) (i : Nat) (hi : i ∉ order) :
    (order.foldl (fun responses k => responses.set k (gen k)) acc)[i]? =
      acc[i]? := by
  induction order generalizing acc with
  | nil => rfl
  | cons j rest ih =>
      have hji : j ≠ i := fun hj => hi (hj ▸ List.mem_cons_self j rest)
      rw [List.foldl_cons,
        ih (acc.set j (gen j)) (fun hm => hi (List.mem_cons_of_mem _ hm)),
        List.getElem?_set_ne hji]

/-- When the write order is a permutation of `0..n-1`, slot `i` ends up
holding exactly the fragment generated for index `i`. -/
theorem dispatchWrites_slot (gen : Nat → String) (n : Nat) (order : List Nat)
    (h : order.Perm (List.range n)) (i : Nat) (hi : i < n) :
    (dispatchWrites gen n order)[i]? = some (gen i) := by
  have hmem : i ∈ order := h.mem_iff.mpr (List.mem_range.mpr hi)
  have hnd : order.Nodup := h.nodup_iff.mpr (List.nodup_range n)
  obtain ⟨l1, l2, rfl⟩ := List.append_of_mem hmem
  have hil2 : i ∉ l2 := by
    have hsub : List.Sublist (i :: l2) (l1 ++ i :: l2) :=
      List.sublist_append_right l1 _
    exact (List.nodup_cons.mp (hsub.nodup hnd)).1
  unfold dispatchWrites
  rw [List.foldl_append, List.foldl_cons,
    dispatchFold_not_mem gen l2 _ i hil2]
  have hlen :
      (l1.foldl (fun responses k => responses.set k (gen k))
        (List.replicate n "")).length = n := by
    rw [dispatchFold_length]; exact List.length_replicate n ""
  exact List.getElem?_set_self (by rw [hlen]; exact hi)

/-- C9: for every batch size, every generator and every completion
(write) order that is a permutation of the indices, the dispatcher's
result list equals the generated fragments in input index order. -/
theorem c9_dispatch_index_order (gen : Nat → String) (n : Nat)
    (order : List Nat) (h : order.Perm (List.range n)) :
    dispatchWrites gen n order = (List.range n).map gen := by
  apply List.ext_getElem?
  intro i
  by_cases hi : i < n
  · rw [dispatchWrites_slot gen n order h i hi, List.getElem?_map,
      List.getElem?_range hi, Option.map_some']
  · have h1 : (dispatchWrites gen n order).length = n := by
      unfold dispatchWrites
      rw [dispatchFold_length]; exact List.length_replicate n ""
    rw [List.getElem?_eq_none (by omega),
      List.getElem?_eq_none (by simpa using by omega)]

/-- C9 witness: three items completing in the order 2, 0, 1 still fill
the slots in index order. -/
theorem c9_dispatch_index_order_witness :
    dispatchWrites (fun i => "frag" ++ toString i) 3 [2, 0, 1] =
      (List.range 3).map (fun i => "frag" ++ toString i) :=
  c9_dispatch_index_order (fun i => "frag" ++ toString i) 3 [2, 0, 1]
    (by decide)

/-- C6: a first attempt failing with an API error whose status is 429
or at least 500 causes one 10-second sleep and exactly one retry whose
outcome is returned verbatim (two backend calls in total); any other
first-attempt failure is returned immediately with one backend call and
no sleep. -/
theorem c6_retry_policy (backend : Nat → Except GoError String)
    (e : GoError) (h : backend 0 = Except.error e) :
    (isRetryableError e = true →
      CreateChatCompletion backend = (backend 1, 2, [10])) ∧
    (isRetryableError e = false →
      CreateChatCompletion backend = (Except.error e, 1, [])) := by
  cases e with
  | api status msg =>
      constructor
      · intro hr
        have hr' : (status == 429 || decide (500 ≤ status)) = true := hr
        unfold CreateChatCompletion
        rw [h]
        simp only [hr', if_true]
        cases backend 1 <;> rfl
      · intro hr
        have hr' : (status == 429 || decide (500 ≤ status)) = false := hr
        unfold CreateChatCompletion
        rw [h]
        simp [hr']
  | other msg =>
      refine ⟨fun hr => absurd hr (by simp [isRetryableError]), fun _ => ?_⟩
      unfold CreateChatCompletion
      rw [h]

/-- C6 witness: a backend that returns HTTP 429 on the first call and
succeeds on the retry yields the successful result after one 10-second
sleep and two calls in total. -/
theorem c6_retry_policy_witness :
    CreateChatCompletion
        (fun n => if n = 0 then Except.error (GoError.api 429 "rate limit")
                  else Except.ok "done") =
      (Except.ok "done", 2, [10]) :=
  (c6_retry_policy
      (fun n => if n = 0 then Except.error (GoError.api 429 "rate limit")
                else Except.ok "done")
      (GoError.api 429 "rate limit") rfl).1 rfl

/-- C7: aggregating the two demo fragments with comment-mode off yields
one `package demo` header, one import block containing `"fmt"` exactly
once, and `func A(){}` before `func B(){}` in the body. -/
theorem c7_demo_scenario :
    AggregateFiles "demo"
        ["package demo\nimport \"fmt\"\nfunc A(){}\n",
         "package demo\nimport \"fmt\"\nfunc B(){}\n"] false =
      some
        "package demo\n\n\nimport (\n\t\"fmt\"\n)\n\nfunc A(){}\n\n\nfunc B(){}\n\n\n" ∧
    ((goSplitNL
        "package demo\n\n\nimport (\n\t\"fmt\"\n)\n\nfunc A(){}\n\n\nfunc B(){}\n\n\n").countP
          (fun l => goHasPre l "package ") = 1 ∧
      (goSplitNL
        "package demo\n\n\nimport (\n\t\"fmt\"\n)\n\nfunc A(){}\n\n\nfunc B(){}\n\n\n").count
          "\t\"fmt\"" = 1 ∧
      (goSplitNL
        "package demo\n\n\nimport (\n\t\"fmt\"\n)\n\nfunc A(){}\n\n\nfunc B(){}\n\n\n").indexOf
          "func A(){}" <
        (goSplitNL
          "package demo\n\n\nimport (\n\t\"fmt\"\n)\n\nfunc A(){}\n\n\nfunc B(){}\n\n\n").indexOf
          "func B(){}") := by
  decide

/-- C10: aggregating an empty fragment list yields exactly the header
plus one blank line when the package identifier is non-empty, exactly
`"\n"` when it is empty, and never the empty string. -/
theorem c10_empty_fragment_list (pkg : String) (comment : Bool) :
    AggregateFiles pkg [] comment =
      some ((if pkg = "" then "" else "package " ++ pkg ++ "\n") ++ "\n") ∧
    AggregateFiles pkg [] comment ≠ some "" := by
  have hval : AggregateFiles pkg [] comment =
      some ((if pkg = "" then "" else "package " ++ pkg ++ "\n") ++ "\n") := by
    show some (combineSections pkg (renderImports []) (renderBody [])) = _
    unfold combineSections renderImports renderBody
    simp
  refine ⟨hval, ?_⟩
  intro hcon
  rw [hval] at hcon
  have hs : ((if pkg = "" then "" else "package " ++ pkg ++ "\n") ++ "\n") =
      ("" : String) := Option.some.inj hcon
  have hdata := congrArg String.data hs
  rw [String.data_append] at hdata
  rcases List.append_eq_nil.mp hdata with ⟨-, h2⟩
  simp at h2

/-- The character list of a `String.mk`. -/
theorem data_mk (l : List Char) : (String.mk l).data = l := rfl

/-- The character list of the newline literal. -/
theorem data_newline : ("\n" : String).data = ['\n'] := rfl

/-- The character list of the empty literal. -/
theorem data_empty : ("" : String).data = [] := rfl

/-- The character list of the double-newline literal. -/
theorem data_newline2 : ("\n\n" : String).data = ['\n', '\n'] := rfl

/-- An ordinary line: its trimmed text matches none of the aggregator's
four structural markers, so the line loop appends it to the body. -/
def ordinaryLine (l : String) : Prop :=
  isPackageDeclaration (goTrimSpace l) = false ∧
  isGPTAddedCodeBlockDelimeter (goTrimSpace l) = false ∧
  startsImportBlock (goTrimSpace l) = false ∧
  isSingleImportStatement (goTrimSpace l) = false

instance (l : String) : Decidable (ordinaryLine l) := by
  unfold ordinaryLine; infer_instance

/-- On all-ordinary lines, the comment-off line loop appends exactly
the lines themselves and never touches the import list. -/
theorem aggLines_ordinary (lines : List String)
    (hord : ∀ l ∈ lines, ordinaryLine l) :
    ∀ imports functions : List String,
      aggLines false lines false imports functions =
        some (imports, functions ++ lines) := by
  induction lines with
  | nil => intro imports functions; simp [aggLines]
  | cons x rest ih =>
      intro imports functions
      obtain ⟨h1, h2, h3, h4⟩ := hord x (List.mem_cons_self x rest)
      simp only [aggLines, h1, h2, h3, h4, Bool.or_self,
        Bool.false_eq_true, if_false]
      rw [ih (fun l hl => hord l (List.mem_cons_of_mem x hl))]
      simp

/-- Body chunks of an all-ordinary content list: each file's lines
followed by the fragment separator. -/
def ordinaryChunks : List String → List String
  | [] => []
  | c :: cs => (goSplitNL c ++ [""]) ++ ordinaryChunks cs

/-- On all-ordinary contents, the comment-off fragment loop appends
exactly the contents' lines with separators and collects no imports. -/
theorem aggFragments_ordinary (cs : List String)
    (hord : ∀ c ∈ cs, ∀ l ∈ goSplitNL c, ordinaryLine l) :
    ∀ imports functions : List String,
      aggFragments false cs imports functions =
        some (imports, functions ++ ordinaryChunks cs) := by
  induction cs with
  | nil => intro imports functions; simp [aggFragments, ordinaryChunks]
  | cons g rest ih =>
      intro imports functions
      unfold aggFragments
      rw [aggLines_ordinary (goSplitNL g) (hord g (List.mem_cons_self g rest))
        imports functions]
      show aggFragments false rest imports ((functions ++ goSplitNL g) ++ [""]) =
        some (imports, functions ++ ordinaryChunks (g :: rest))
      rw [ih (fun c hc l hl => hord c (List.mem_cons_of_mem g hc) l hl)]
      simp [ordinaryChunks]

/-- `renderBody` distributes over chunk concatenation. -/
theorem renderBody_append (a b : List String) :
    renderBody (a ++ b) = renderBody a ++ renderBody b := by
  induction a with
  | nil => simp [renderBody]
  | cons c cs ih => simp [renderBody, ih, String.append_assoc]

/-- Rendering the pieces of a split restores the text plus a final
newline. -/
theorem renderBody_splitLinesAux (cs : List Char) :
    ∀ acc : List Char,
      (renderBody (splitLinesAux cs acc)).data =
        acc.reverse ++ cs ++ ['\n'] := by
  induction cs with
  | nil =>
      intro acc
      simp [splitLinesAux, renderBody, String.data_append, data_mk,
        data_newline, data_empty]
  | cons c cs2 ih =>
      intro acc
      by_cases hc : c = '\n'
      · subst hc
        simp [splitLinesAux, renderBody, String.data_append, data_mk,
          data_newline, ih]
      · simp only [splitLinesAux, hc, if_false, ih]
        simp

/-- Rendering the split of a content string yields the content plus a
final newline. -/
theorem renderBody_splitNL (c : String) :
    renderBody (goSplitNL c) = c ++ "\n" := by
  apply String.ext
  rw [String.data_append, data_newline]
  unfold goSplitNL
  rw [renderBody_splitLinesAux]
  simp

/-- The amended C5 body: every file's content in input order, each
followed by its final line terminator and the blank separator line. -/
def concatBody : List String → String
  | [] => ""
  | c :: cs => c ++ "\n\n" ++ concatBody cs

/-- Rendering the ordinary chunks yields the contents in order with
separators. -/
theorem renderBody_ordinaryChunks (cs : List String) :
    renderBody (ordinaryChunks cs) = concatBody cs := by
  induction cs with
  | nil => rfl
  | cons c rest ih =>
      show renderBody ((goSplitNL c ++ [""]) ++ ordinaryChunks rest) = _
      rw [renderBody_append, renderBody_append, renderBody_splitNL, ih]
      apply String.ext
      show (c ++ "\n" ++ ("" ++ "\n" ++ "") ++ concatBody rest).data =
        (c ++ "\n\n" ++ concatBody rest).data
      simp [String.data_append, data_newline, data_newline2, data_empty]

/-- C5 counterexample: `ConcatFiles` adds no comment line naming the
source path — the path `a.go` occurs nowhere in the blob — and the
blob does not even contain the file's content verbatim, because the
package-declaration line is stripped by the aggregation pass. -/
theorem c5_no_path_annotation :
    ConcatFiles
        (fun p => if p = "a.go" then some "package p\nfunc A(){}" else none)
        ["a.go"] =
      Except.ok (some ("p", "package p\n\nfunc A(){}\n\n")) ∧
    ¬ List.IsInfix "a.go".data ("package p\n\nfunc A(){}\n\n").data ∧
    ¬ List.IsInfix ("package p\nfunc A(){}").data
        ("package p\n\nfunc A(){}\n\n").data := by
  exact ⟨rfl, by decide, by decide⟩

/-- C5 amended: the blob returned by `ConcatFiles` is the comment-off
aggregation of the file contents in input order — for files made of
ordinary lines the blob is exactly the package header section followed
by every file's full content in input order, each content followed by a
blank separator line; no comment line naming a source path is added
anywhere. -/
theorem c5_blob_is_ordered_contents (readFile : String → Option String)
    (paths cs : List String)
    (hread : readAll readFile paths = Except.ok cs)
    (hord : ∀ c ∈ cs, ∀ l ∈ goSplitNL c, ordinaryLine l) :
    ConcatFiles readFile paths =
      Except.ok (some (pkgOfContents cs,
        combineSections (pkgOfContents cs) "" (concatBody cs))) := by
  unfold ConcatFiles
  rw [hread]
  show Except.ok ((AggregateFiles (pkgOfContents cs) cs false).map
    (fun s => (pkgOfContents cs, s))) = _
  unfold AggregateFiles
  rw [aggFragments_ordinary cs hord [] [], List.nil_append]
  show Except.ok (some (pkgOfContents cs,
    combineSections (pkgOfContents cs) (renderImports [])
      (renderBody (ordinaryChunks cs)))) = _
  rw [renderBody_ordinaryChunks]
  rfl

/-- C5 amended witness: two plain files concatenate, in order, into the
header section followed by both contents. -/
theorem c5_blob_is_ordered_contents_witness :
    ConcatFiles
        (fun p => if p = "a.go" then some "func A(){}"
                  else if p = "b.go" then some "func B(){}" else none)
        ["a.go", "b.go"] =
      Except.ok (some (pkgOfContents ["func A(){}", "func B(){}"],
        combineSections (pkgOfContents ["func A(){}", "func B(){}"]) ""
          (concatBody ["func A(){}", "func B(){}"]))) :=
  c5_blob_is_ordered_contents
    (fun p => if p = "a.go" then some "func A(){}"
              else if p = "b.go" then some "func B(){}" else none)
    ["a.go", "b.go"] ["func A(){}", "func B(){}"] rfl (by decide)

/-- The package scan returns the trimmed suffix of the first line
carrying the `package ` marker; the lines before it do not matter and
the lines after it are never consulted. -/
theorem extractPkgName_first (ls : List String) :
    ∀ (pre : List String) (l : String) (post : List String),
      ls = pre ++ l :: post →
      (∀ l2 ∈ pre, goHasPre l2 "package " = false) →
      goHasPre l "package " = true →
      extractPkgName ls = goTrimPre l "package " := by
  induction ls with
  | nil =>
      intro pre l post heq
      cases pre <;> simp at heq
  | cons x rest ih =>
      intro pre l post heq hpre hl
      cases pre with
      | nil =>
          obtain ⟨rfl, rfl⟩ : x = l ∧ rest = post := by simpa using heq
          unfold extractPkgName
          rw [if_pos hl]
      | cons y pre2 =>
          obtain ⟨rfl, hrest⟩ : x = y ∧ rest = pre2 ++ l :: post := by
            simpa using heq
          have hx : goHasPre x "package " = false :=
            hpre x (List.mem_cons_self x pre2)
          unfold extractPkgName
          rw [if_neg (by simp [hx])]
          exact ih pre2 l post hrest
            (fun l2 h2 => hpre l2 (List.mem_cons_of_mem x h2)) hl

/-- With no `package `-prefixed line, the package scan returns the
empty identifier. -/
theorem extractPkgName_none (ls : List String)
    (h : ∀ l ∈ ls, goHasPre l "package " = false) :
    extractPkgName ls = "" := by
  induction ls with
  | nil => rfl
  | cons x rest ih =>
      unfold extractPkgName
      rw [if_neg (by simp [h x (List.mem_cons_self x rest)])]
      exact ih (fun l hl => h l (List.mem_cons_of_mem x hl))

/-- C8: with readable files, `ConcatFiles` returns without a read
error, and any identifier it returns is computed from the first file
alone: it is the text after `package ` on that file's first
`package `-prefixed scanned line, found by a scan that stops at the
first match, and it is the empty string (still no error) when the first
file has no such line. -/
theorem c8_pkg_identifier (readFile : String → Option String)
    (paths : List String) (c : String) (cs : List String)
    (hread : readAll readFile paths = Except.ok (c :: cs)) :
    (∃ res, ConcatFiles readFile paths = Except.ok res ∧
      ∀ p s, res = some (p, s) → p = extractPkgName (scanLines c)) ∧
    (∀ (pre : List String) (l : String) (post : List String),
      scanLines c = pre ++ l :: post →
      (∀ l2 ∈ pre, goHasPre l2 "package " = false) →
      goHasPre l "package " = true →
      extractPkgName (scanLines c) = goTrimPre l "package ") ∧
    ((∀ l ∈ scanLines c, goHasPre l "package " = false) →
      extractPkgName (scanLines c) = "") := by
  refine ⟨?_, extractPkgName_first (scanLines c),
    extractPkgName_none (scanLines c)⟩
  refine ⟨(AggregateFiles (pkgOfContents (c :: cs)) (c :: cs) false).map
    (fun s => (pkgOfContents (c :: cs), s)), ?_, ?_⟩
  · unfold ConcatFiles
    rw [hread]
  · intro p s hps
    cases hagg : AggregateFiles (pkgOfContents (c :: cs)) (c :: cs) false with
    | none => rw [hagg] at hps; cases hps
    | some v =>
        rw [hagg] at hps
        simp only [Option.map_some', Option.some.injEq, Prod.mk.injEq] at hps
        rw [← hps.1]
        rfl

/-- C8 witness: the identifier comes from the first matching line of
the first file only; the second file's differing declaration is
ignored. -/
theorem c8_pkg_identifier_witness :
    (∃ res, ConcatFiles
        (fun p => if p = "x.go" then some "// c\npackage mypkg\nrest"
                  else if p = "y.go" then some "package other" else none)
        ["x.go", "y.go"] =
      Except.ok res ∧
      ∀ p s, res = some (p, s) →
        p = extractPkgName (scanLines "// c\npackage mypkg\nrest")) ∧
    (∀ (pre : List String) (l : String) (post : List String),
      scanLines "// c\npackage mypkg\nrest" = pre ++ l :: post →
      (∀ l2 ∈ pre, goHasPre l2 "package " = false) →
      goHasPre l "package " = true →
      extractPkgName (scanLines "// c\npackage mypkg\nrest") =
        goTrimPre l "package ") ∧
    ((∀ l ∈ scanLines "// c\npackage mypkg\nrest",
        goHasPre l "package " = false) →
      extractPkgName (scanLines "// c\npackage mypkg\nrest") = "") :=
  c8_pkg_identifier
    (fun p => if p = "x.go" then some "// c\npackage mypkg\nrest"
              else if p = "y.go" then some "package other" else none)
    ["x.go", "y.go"] "// c\npackage mypkg\nrest" ["package other"] rfl
